import Mathlib

/-!
Verification development for the `trading_helpers` repository.

The data model and operations are a shallow embedding of the Python source:

* `schemas.py` — `CandleInterval`, `_Candle` with its arithmetic dunders,
  `_Candles.remove_same_candles_in_a_row` and `_Candles._do_math_operation`;
* `csv_candles.py` — `_CSVCandles._read` and `_CSVCandles._append`.

Modelling conventions:

* floats become exact rationals (`ℚ`); Python float formatting/parsing
  round-trips exactly, so the rational model is faithful for the codec claims;
* `datetime` instants become `Int` seconds since an epoch; `date()` extraction
  is floor division by 86400 (one day), matching Python's calendar-date
  comparison of timestamps; `timedelta(minutes=m)` becomes `60 * m` seconds;
* a CSV cell is abstracted by the set of conversions that succeed on its text:
  `float(s)`, `int(s)` and `datetime.fromisoformat(s)` become the three
  `Option` fields of `Cell`;
* Python exceptions become `Except`/`Option` results;
* Python list indexing (`xs[i]`, including the negative-index wraparound) is
  the total function `pyGet` returning `none` exactly where Python raises
  `IndexError`.
-/

/-- Sampling granularity, from `CandleInterval` in `schemas.py`. -/
inductive CandleInterval
  | MIN_1 | MIN_2 | MIN_3 | MIN_5 | MIN_10 | MIN_15 | MIN_30
  | HOUR | HOUR_2 | HOUR_4 | DAY | WEEK | MONTH
  deriving DecidableEq, Repr

/-- Immutable OHLCV sample, from `_Candle` in `schemas.py`.  `dt` is the
timestamp in seconds. -/
structure Candle where
  «open» : ℚ
  high : ℚ
  low : ℚ
  close : ℚ
  volume : Int
  dt : Int
  deriving DecidableEq, Repr

/-- Calendar date of a timestamp (day number), modelling `datetime.date()`:
integer floor division of the instant by the number of seconds in a day. -/
def dateOf (t : Int) : Int := t / 86400

/-- Field-wise addition, from `_Candle.__add__`: OHLC added, volumes summed,
timestamp is the later operand's. -/
def Candle.add (a b : Candle) : Candle :=
  ⟨a.«open» + b.«open», a.high + b.high, a.low + b.low, a.close + b.close,
   a.volume + b.volume, if a.dt ≥ b.dt then a.dt else b.dt⟩

/-- Field-wise subtraction, from `_Candle.__sub__`: volumes still summed. -/
def Candle.sub (a b : Candle) : Candle :=
  ⟨a.«open» - b.«open», a.high - b.high, a.low - b.low, a.close - b.close,
   a.volume + b.volume, if a.dt ≥ b.dt then a.dt else b.dt⟩

/-- Field-wise multiplication, from `_Candle.__mul__`: volumes still summed. -/
def Candle.mul (a b : Candle) : Candle :=
  ⟨a.«open» * b.«open», a.high * b.high, a.low * b.low, a.close * b.close,
   a.volume + b.volume, if a.dt ≥ b.dt then a.dt else b.dt⟩

/-- Field-wise division, from `_Candle.__truediv__`.  Python raises
`ZeroDivisionError` on a zero denominator, modelled as `none`. -/
def Candle.truediv (a b : Candle) : Option Candle :=
  if b.«open» = 0 ∨ b.high = 0 ∨ b.low = 0 ∨ b.close = 0 then none
  else
    some ⟨a.«open» / b.«open», a.high / b.high, a.low / b.low, a.close / b.close,
      a.volume + b.volume, if a.dt ≥ b.dt then a.dt else b.dt⟩

/-- Loop body of `_Candles.remove_same_candles_in_a_row`: walks the tail with
the current reference candle `c1`; a step either drops the visited candle
(identical OHLCV, differing timestamp) or retires `c1` into the output and
makes the visited candle the new reference. -/
def rscLoop : Candle → List Candle → List Candle
  | _, [] => []
  | c1, c2 :: rest =>
    if c1.«open» = c2.«open» ∧ c1.high = c2.high ∧ c1.low = c2.low ∧
       c1.close = c2.close ∧ c1.volume = c2.volume ∧ c1.dt ≠ c2.dt then
      rscLoop c1 rest
    else
      c1 :: rscLoop c2 rest

/-- From `_Candles.remove_same_candles_in_a_row`: runs the loop and then
unconditionally appends the input's final candle.  Python raises `IndexError`
on an empty series (`self[0]`), modelled as `none`. -/
def remove_same_candles_in_a_row (s : List Candle) : Option (List Candle) :=
  match s with
  | [] => none
  | c :: rest => some (rscLoop c rest ++ [(c :: rest).getLast (List.cons_ne_nil c rest)])

/-- Python list indexing `xs[i]`: a non-negative index is positional, a
negative index wraps around from the end (`xs[-1]` is the last element);
`none` exactly where Python raises `IndexError`. -/
def pyGet (xs : List Candle) (i : Int) : Option Candle :=
  if 0 ≤ i then xs[i.toNat]?
  else if i.natAbs ≤ xs.length then xs[xs.length - i.natAbs]? else none

/-- Failure modes of `_Candles._do_math_operation`: the guard `Exception` on an
empty operand, an out-of-range list access (`IndexError`), and the final
cursor `assert` (the merge-shape-mismatch fault). -/
inductive MathOpError
  | emptyList
  | indexError
  | shapeMismatch
  deriving DecidableEq, Repr

/-- Loop of `_Candles._do_math_operation` over cursors `i1` into `xs` (`self`)
and `i2` into `ys` (`other`).  Each iteration reads `c1 = self[i1]`,
`c2 = other[i2]`; on equal timestamps both cursors advance; on `c1.dt > c2.dt`
the code substitutes `self[i1 - 1]` for `c1` and advances `i2`; on
`c1.dt < c2.dt` the code substitutes `self[i2 - 1]` (note: `self`, not
`other`, exactly as in the source) for `c2` and advances `i1`.  The combined
candle is appended after every step; the loop returns once a cursor reaches
its list's length, asserting that both did. -/
def mathOpGo (f : Candle → Candle → Candle) (xs ys : List Candle) (i1 i2 : Nat)
    (h1 : i1 < xs.length) (h2 : i2 < ys.length) : Except MathOpError (List Candle) :=
  if (xs.get ⟨i1, h1⟩).dt = (ys.get ⟨i2, h2⟩).dt then
    if h : i1 + 1 = xs.length ∨ i2 + 1 = ys.length then
      if i1 + 1 = xs.length ∧ i2 + 1 = ys.length then
        .ok [f (xs.get ⟨i1, h1⟩) (ys.get ⟨i2, h2⟩)]
      else .error .shapeMismatch
    else
      (mathOpGo f xs ys (i1 + 1) (i2 + 1) (by omega) (by omega)).map
        (f (xs.get ⟨i1, h1⟩) (ys.get ⟨i2, h2⟩) :: ·)
  else if (xs.get ⟨i1, h1⟩).dt > (ys.get ⟨i2, h2⟩).dt then
    match pyGet xs ((i1 : Int) - 1) with
    | none => .error .indexError
    | some c1' =>
      if h : i1 = xs.length ∨ i2 + 1 = ys.length then
        if i1 = xs.length ∧ i2 + 1 = ys.length then
          .ok [f c1' (ys.get ⟨i2, h2⟩)]
        else .error .shapeMismatch
      else
        (mathOpGo f xs ys i1 (i2 + 1) h1 (by omega)).map (f c1' (ys.get ⟨i2, h2⟩) :: ·)
  else
    match pyGet xs ((i2 : Int) - 1) with
    | none => .error .indexError
    | some c2' =>
      if h : i1 + 1 = xs.length ∨ i2 = ys.length then
        if i1 + 1 = xs.length ∧ i2 = ys.length then
          .ok [f (xs.get ⟨i1, h1⟩) c2']
        else .error .shapeMismatch
      else
        (mathOpGo f xs ys (i1 + 1) i2 (by omega) h2).map (f (xs.get ⟨i1, h1⟩) c2' :: ·)
termination_by (xs.length - i1) + (ys.length - i2)
decreasing_by all_goals simp_wf; omega

/-- From `_Candles._do_math_operation`: empty-operand guard, then the cursor
loop from position `(0, 0)`. -/
def do_math_operation (f : Candle → Candle → Candle) (xs ys : List Candle) :
    Except MathOpError (List Candle) :=
  if h : xs.length = 0 ∨ ys.length = 0 then .error .emptyList
  else mathOpGo f xs ys 0 0 (by omega) (by omega)

/-- Header column names as matched by `_CSVCandles._read`; `cunknown` stands
for any other header text (matched by none of the name branches). -/
inductive ColName
  | copen | chigh | clow | cclose | cvolume | ctime | cunknown
  deriving DecidableEq, Repr

/-- One `;`-separated cell of a data row, abstracted by which of the three
Python conversions succeed on its text: `asFloat` is `float(s)`, `asInt` is
`int(s)`, `asDatetime` is `datetime.fromisoformat(s)` (`none` where the
conversion raises `ValueError`). -/
structure Cell where
  asFloat : Option ℚ
  asInt : Option Int
  asDatetime : Option Int
  deriving DecidableEq, Repr

/-- A converted cell value as accumulated into `values` by `_read`. -/
inductive Value
  | vfloat (q : ℚ)
  | vint (n : Int)
  | vtime (t : Int)
  deriving DecidableEq, Repr

/-- Conversion loop `for column, value in zip(columns, str_values)` of
`_read`: pairs stop at the shorter list (`zip` truncates); the conversion is
chosen by the column's name; a cell under an unmatched column name is skipped
without appending; a failing conversion aborts the row. -/
def convertCells : List ColName → List Cell → Option (List Value)
  | [], _ => some []
  | _ :: _, [] => some []
  | .copen :: cols, cell :: cells =>
    match cell.asFloat with
    | none => none
    | some q => (convertCells cols cells).map (Value.vfloat q :: ·)
  | .chigh :: cols, cell :: cells =>
    match cell.asFloat with
    | none => none
    | some q => (convertCells cols cells).map (Value.vfloat q :: ·)
  | .clow :: cols, cell :: cells =>
    match cell.asFloat with
    | none => none
    | some q => (convertCells cols cells).map (Value.vfloat q :: ·)
  | .cclose :: cols, cell :: cells =>
    match cell.asFloat with
    | none => none
    | some q => (convertCells cols cells).map (Value.vfloat q :: ·)
  | .cvolume :: cols, cell :: cells =>
    match cell.asInt with
    | none => none
    | some n => (convertCells cols cells).map (Value.vint n :: ·)
  | .ctime :: cols, cell :: cells =>
    match cell.asDatetime with
    | none => none
    | some t => (convertCells cols cells).map (Value.vtime t :: ·)
  | .cunknown :: cols, _ :: cells => convertCells cols cells

/-- Modelled from the spec: the concrete `row2candle` implementations are not
in the repository (`_CSVCandles.row2candle` is an abstract method).  Per the
spec's codec contract the six converted values — four floats, an integer
volume and an instant — are passed positionally to the candle constructor; any
other shape of the `values` list fails the row. -/
def row2candle : List Value → Option Candle
  | [.vfloat o, .vfloat h, .vfloat l, .vfloat c, .vint v, .vtime t] =>
    some ⟨o, h, l, c, v, t⟩
  | _ => none

/-- Decoding of one data row in `_read`: convert the cells under the header's
columns, then build the candle. -/
def decodeRow (cols : List ColName) (cells : List Cell) : Option Candle :=
  (convertCells cols cells).bind row2candle

/-- Outcomes of `_read` other than a successful series: a row that fails to
decode (the spec's `MalformedRow`: Python propagates the conversion or
constructor error), and the two gap signals. -/
inductive ReadError
  | malformedRow
  | needInsert (to_temp : Int)
  | needAppend (from_temp : Int) (candles : List Candle)
  deriving DecidableEq, Repr

/-- A cache file as `_read` sees it after splitting lines: the header row's
column names and the data rows' cells. -/
structure ReadFile where
  header : List ColName
  rows : List (List Cell)

/-- Row loop of `_CSVCandles._read` over data rows with running index `i` and
total row count `n`: decode the row, collect it into `candles` when its
timestamp lies in `[from_, to]`, then evaluate the first-row `NeedInsert`
check and the last-row `NeedAppend` check exactly as in the source (the
append tolerance condition reproduces the Python `and`/`or` grouping: the
same-date conjunct binds only to the `MIN_1` arm). -/
def readGo (iv : CandleInterval) (from_ to_ : Int) (cols : List ColName) (n : Nat) :
    Nat → List (List Cell) → List Candle → Except ReadError (List Candle)
  | _, [], acc => .ok acc
  | i, row :: rest, acc =>
    match decodeRow cols row with
    | none => .error .malformedRow
    | some c =>
      let acc' := if from_ ≤ c.dt ∧ c.dt ≤ to_ then acc ++ [c] else acc
      if i = 0 ∧ from_ < c.dt ∧
          ¬(iv = CandleInterval.DAY ∧ dateOf c.dt = dateOf from_) then
        .error (.needInsert c.dt)
      else if i = n - 1 ∧ c.dt < to_ ∧
          ((dateOf c.dt = dateOf to_ ∧ iv = CandleInterval.MIN_1 ∧ to_ - c.dt > 120) ∨
           (iv = CandleInterval.MIN_5 ∧ to_ - c.dt > 360) ∨
           (iv = CandleInterval.HOUR ∧ to_ - c.dt > 3660) ∨
           (dateOf c.dt < dateOf to_ ∧ iv = CandleInterval.DAY)) then
        .error (.needAppend c.dt acc')
      else
        readGo iv from_ to_ cols n (i + 1) rest acc'

/-- From `_CSVCandles._read`: run the row loop over all data rows. -/
def csv_read (iv : CandleInterval) (from_ to_ : Int) (file : ReadFile) :
    Except ReadError (List Candle) :=
  readGo iv from_ to_ file.header file.rows.length 0 file.rows []

/-- Modelled from the spec: `COLUMNS` is an abstract class variable of
`_CSVCandles`; the spec fixes the column set written by `_prepare_new` as
`open;high;low;close;volume;time`, the same order `_append` writes values in. -/
def COLUMNS : List ColName :=
  [.copen, .chigh, .clow, .cclose, .cvolume, .ctime]

/-- Cell produced by `str(x)` on a Python float: it parses back as the same
float (repr round-trip), not as an int nor as a datetime. -/
def strOfFloat (q : ℚ) : Cell := ⟨some q, none, none⟩

/-- Cell produced by `str(x)` on a Python int: it parses back as the same int,
and `float()` also accepts it; it is not a datetime. -/
def strOfInt (n : Int) : Cell := ⟨some n, some n, none⟩

/-- Cell produced by `str(x)` on a Python datetime: `fromisoformat` parses it
back exactly; the numeric conversions fail on it. -/
def strOfDatetime (t : Int) : Cell := ⟨none, none, some t⟩

/-- Row written for one candle by `_CSVCandles._append`: the candle's fields
stringified in the fixed order `open;high;low;close;volume;dt`. -/
def encodeRow (c : Candle) : List Cell :=
  [strOfFloat c.«open», strOfFloat c.high, strOfFloat c.low, strOfFloat c.close,
   strOfInt c.volume, strOfDatetime c.dt]

/-- From `_CSVCandles._append`: the data rows appended for a series, one
encoded row per candle. -/
def csv_append (candles : List Candle) : List (List Cell) :=
  candles.map encodeRow

/-- The timestamp choice `self.dt if self.dt >= other.dt else other.dt` is the
maximum of the two timestamps. -/
theorem if_ge_max (x y : Int) : (if x ≥ y then x else y) = max x y := by
  rcases le_total y x with h | h
  · rw [if_pos h, max_eq_left h]
  · by_cases h2 : x ≥ y
    · rw [if_pos h2, max_eq_left h2]
    · rw [if_neg h2, max_eq_right h]

/-- Decoding undoes encoding on a single row under the canonical header. -/
theorem decode_encode (c : Candle) : decodeRow COLUMNS (encodeRow c) = some c := rfl

/-- C5: each binary candle operator acts field-wise on OHLC, always sums the
volumes, and stamps the result with the later operand timestamp (division is
defined when no denominator field is zero); and the series-level `add` of the
two one-candle series of the claim yields the claimed one-candle series for
every common timestamp `t`. -/
theorem candle_ops_fieldwise (a b : Candle) :
    a.add b = ⟨a.«open» + b.«open», a.high + b.high, a.low + b.low, a.close + b.close,
      a.volume + b.volume, max a.dt b.dt⟩
    ∧ a.sub b = ⟨a.«open» - b.«open», a.high - b.high, a.low - b.low, a.close - b.close,
      a.volume + b.volume, max a.dt b.dt⟩
    ∧ a.mul b = ⟨a.«open» * b.«open», a.high * b.high, a.low * b.low, a.close * b.close,
      a.volume + b.volume, max a.dt b.dt⟩
    ∧ (b.«open» ≠ 0 → b.high ≠ 0 → b.low ≠ 0 → b.close ≠ 0 →
      a.truediv b = some ⟨a.«open» / b.«open», a.high / b.high, a.low / b.low,
        a.close / b.close, a.volume + b.volume, max a.dt b.dt⟩)
    ∧ ∀ t : Int, do_math_operation Candle.add [⟨1, 2, 0, 1, 10, t⟩] [⟨2, 3, 1, 2, 20, t⟩]
      = .ok [⟨3, 5, 1, 3, 30, t⟩] := by
  refine ⟨?_, ?_, ?_, ?_, ?_⟩
  · simp [Candle.add, if_ge_max]
  · simp [Candle.sub, if_ge_max]
  · simp [Candle.mul, if_ge_max]
  · intro h1 h2 h3 h4
    rw [Candle.truediv, if_neg (by tauto)]
    simp [if_ge_max]
  · intro t
    rw [do_math_operation, dif_neg (by simp)]
    rw [mathOpGo]
    norm_num [Candle.add]

/-- Witness for C5: the division clause at concrete candles with nonzero
denominators. -/
theorem candle_ops_fieldwise_witness :
    Candle.truediv ⟨1, 2, 3, 4, 5, 0⟩ ⟨2, 4, 8, 16, 7, 3⟩
      = some ⟨(1 : ℚ) / 2, (2 : ℚ) / 4, (3 : ℚ) / 8, (4 : ℚ) / 16, 5 + 7, max (0 : Int) 3⟩ :=
  (candle_ops_fieldwise ⟨1, 2, 3, 4, 5, 0⟩ ⟨2, 4, 8, 16, 7, 3⟩).2.2.2.1
    (by norm_num) (by norm_num) (by norm_num) (by norm_num)

/-- The loop of `remove_same_candles_in_a_row` never emits more candles than
it visits. -/
theorem rscLoop_length_le (rest : List Candle) : ∀ c1, (rscLoop c1 rest).length ≤ rest.length := by
  induction rest with
  | nil => intro c1; simp [rscLoop]
  | cons c2 t ih =>
    intro c1
    rw [rscLoop]
    split
    · exact (ih c1).trans (by simp)
    · simpa using ih c2

/-- When the visited tail ends in a duplicate pair (identical OHLCV, differing
timestamps), the loop emits at most `mid.length + 1` candles: the two final
steps can contribute at most one emission between them. -/
theorem rscLoop_trailing_pair (x y : Candle)
    (hsame : x.«open» = y.«open» ∧ x.high = y.high ∧ x.low = y.low ∧
      x.close = y.close ∧ x.volume = y.volume)
    (hdt : x.dt ≠ y.dt) :
    ∀ (mid : List Candle) (c1 : Candle),
      (rscLoop c1 (mid ++ [x, y])).length ≤ mid.length + 1 := by
  intro mid
  induction mid with
  | nil =>
    intro c1
    simp only [List.nil_append]
    rw [rscLoop]
    split
    · simpa using rscLoop_length_le [y] c1
    · rw [rscLoop, if_pos ⟨hsame.1, hsame.2.1, hsame.2.2.1, hsame.2.2.2.1, hsame.2.2.2.2, hdt⟩]
      simp [rscLoop]
  | cons m mt ih =>
    intro c1
    simp only [List.cons_append]
    rw [rscLoop]
    split
    · exact (ih c1).trans (by simp)
    · simpa using ih m

/-- C4 (amended): for a series whose last two candles `x, y` have identical
OHLCV and different timestamps, the output ends with the final candle `y` but
contains at most `front.length + 1` candles (one fewer than the input): the
trailing duplicate pair contributes only its final member, the penultimate
candle is dropped; in particular the two-candle series `[x, y]` collapses to
`[y]`. -/
theorem remove_same_trailing_pair (front : List Candle) (x y : Candle)
    (hsame : x.«open» = y.«open» ∧ x.high = y.high ∧ x.low = y.low ∧
      x.close = y.close ∧ x.volume = y.volume)
    (hdt : x.dt ≠ y.dt) :
    ∃ out, remove_same_candles_in_a_row (front ++ [x, y]) = some out ∧
      out.getLast? = some y ∧ out.length ≤ front.length + 1 := by
  have hlast : ∀ (l : List Candle), (l ++ [x, y]).getLast? = some y := by
    intro l
    have : l ++ [x, y] = (l ++ [x]) ++ [y] := by simp
    rw [this, List.getLast?_concat]
  cases front with
  | nil =>
    refine ⟨[y], ?_, by simp, by simp⟩
    rw [List.nil_append, remove_same_candles_in_a_row]
    rw [rscLoop, if_pos ⟨hsame.1, hsame.2.1, hsame.2.2.1, hsame.2.2.2.1, hsame.2.2.2.2, hdt⟩]
    rw [rscLoop]
    simp [List.getLast]
  | cons fr ft =>
    rw [show (fr :: ft) ++ [x, y] = fr :: (ft ++ [x, y]) from rfl,
      remove_same_candles_in_a_row]
    refine ⟨_, rfl, ?_, ?_⟩
    · rw [List.getLast?_concat]
      have h1 := hlast (fr :: ft)
      have h2 := List.getLast?_eq_getLast (fr :: (ft ++ [x, y])) (List.cons_ne_nil _ _)
      exact h2.symm.trans h1
    · have := rscLoop_trailing_pair x y hsame hdt ft fr
      simp only [List.length_append, List.length_cons, List.length_nil]
      omega

/-- Counterexample to C4 as stated: a two-candle series that is itself a
trailing duplicate pair (identical OHLCV, timestamps 0 and 60) collapses to
just the final candle — the penultimate candle is not in the output, so both
members are not emitted. -/
theorem remove_same_trailing_pair_cex :
    remove_same_candles_in_a_row [⟨1, 2, 0, 1, 10, 0⟩, ⟨1, 2, 0, 1, 10, 60⟩]
      = some [⟨1, 2, 0, 1, 10, 60⟩]
    ∧ (⟨1, 2, 0, 1, 10, 0⟩ : Candle) ∉ [(⟨1, 2, 0, 1, 10, 60⟩ : Candle)] := by
  refine ⟨rfl, ?_⟩
  simp [Candle.mk.injEq]

/-- Witness for C4 (amended) at a concrete three-candle series. -/
theorem remove_same_trailing_pair_witness :
    ∃ out, remove_same_candles_in_a_row
        ([(⟨5, 5, 5, 5, 5, 0⟩ : Candle)] ++ [⟨1, 2, 0, 1, 10, 60⟩, ⟨1, 2, 0, 1, 10, 120⟩])
        = some out ∧
      out.getLast? = some ⟨1, 2, 0, 1, 10, 120⟩ ∧
      out.length ≤ [(⟨5, 5, 5, 5, 5, 0⟩ : Candle)].length + 1 :=
  remove_same_trailing_pair [⟨5, 5, 5, 5, 5, 0⟩] ⟨1, 2, 0, 1, 10, 60⟩ ⟨1, 2, 0, 1, 10, 120⟩
    (by norm_num) (by norm_num)

/-- C1: evaluation at the failing input.  With `A` of timestamps `0, 10, 20`
and `B` of timestamps `0, 20`, the step where `A[1].dt = 10 < B[1].dt = 20`
substitutes `self[i2 - 1] = A[0]` (an element of `A`) for `b`, so the second
output candle is `A[1] + A[0]` (open `3`), not the `A[1] + B[0]` (open `102`)
that holding the prior `B` value would give. -/
theorem do_math_substitutes_self_at_failing_input :
    do_math_operation Candle.add
        [⟨1, 1, 1, 1, 1, 0⟩, ⟨2, 2, 2, 2, 1, 10⟩, ⟨3, 3, 3, 3, 1, 20⟩]
        [⟨100, 100, 100, 100, 1, 0⟩, ⟨200, 200, 200, 200, 1, 20⟩]
      = .ok [⟨101, 101, 101, 101, 2, 0⟩, ⟨3, 3, 3, 3, 2, 10⟩, ⟨203, 203, 203, 203, 2, 20⟩]
    ∧ Candle.add ⟨2, 2, 2, 2, 1, 10⟩ ⟨100, 100, 100, 100, 1, 0⟩
      = ⟨102, 102, 102, 102, 2, 10⟩
    ∧ (⟨3, 3, 3, 3, 2, 10⟩ : Candle) ≠ ⟨102, 102, 102, 102, 2, 10⟩ := by
  refine ⟨?_, ?_, ?_⟩
  · rw [do_math_operation, dif_neg (by simp)]
    rw [mathOpGo]; norm_num
    rw [mathOpGo]; norm_num [pyGet]
    rw [mathOpGo]; norm_num [Candle.add]
    rfl
  · simp [Candle.add]
    norm_num
  · simp [Candle.mk.injEq]

/-- The combine loop on `xs` against `xs ++ extra` advances both cursors in
lockstep (every step sees equal timestamps), so `xs`'s cursor reaches its end
first and the final `assert` fails. -/
theorem mathOpGo_prefix_mismatch (f : Candle → Candle → Candle)
    (xs extra : List Candle) (hex : extra ≠ []) :
    ∀ (k i : Nat) (hi : i < xs.length) (hi2 : i < (xs ++ extra).length),
      xs.length - i ≤ k →
      mathOpGo f xs (xs ++ extra) i i hi hi2 = .error .shapeMismatch := by
  intro k
  induction k with
  | zero => intro i hi _ hk; omega
  | succ k ih =>
    intro i hi hi2 hk
    have hget : (xs ++ extra).get ⟨i, hi2⟩ = xs.get ⟨i, hi⟩ := by
      simp only [List.get_eq_getElem]
      exact List.getElem_append_left hi
    rw [mathOpGo, hget, if_pos rfl]
    have hexlen : 0 < extra.length := List.length_pos.mpr hex
    by_cases h1 : i + 1 = xs.length
    · rw [dif_pos (Or.inl h1)]
      rw [if_neg (by simp only [List.length_append]; omega)]
    · rw [dif_neg (by simp only [List.length_append]; omega)]
      rw [ih (i + 1) (by omega) (by simp only [List.length_append]; omega) (by omega)]
      rfl

/-- C9: combining a non-empty series with a strict extension of itself makes
the cursors reach their ends at different times, and the combine fails with
the shape-mismatch fault (the source's `assert` that both cursors finish
together). -/
theorem do_math_shape_mismatch (f : Candle → Candle → Candle)
    (xs extra : List Candle) (hx : xs ≠ []) (hex : extra ≠ []) :
    do_math_operation f xs (xs ++ extra) = .error .shapeMismatch := by
  have hxlen : 0 < xs.length := List.length_pos.mpr hx
  have hexlen : 0 < extra.length := List.length_pos.mpr hex
  rw [do_math_operation, dif_neg (by simp only [List.length_append]; omega)]
  exact mathOpGo_prefix_mismatch f xs extra hex xs.length 0 (by omega)
    (by simp only [List.length_append]; omega) (by omega)

/-- Witness for C9: a one-candle series against its two-candle extension. -/
theorem do_math_shape_mismatch_witness :
    do_math_operation Candle.add [⟨1, 1, 1, 1, 1, 0⟩]
        ([⟨1, 1, 1, 1, 1, 0⟩] ++ [⟨2, 2, 2, 2, 2, 60⟩])
      = .error .shapeMismatch :=
  do_math_shape_mismatch Candle.add [⟨1, 1, 1, 1, 1, 0⟩] [⟨2, 2, 2, 2, 2, 60⟩]
    (by simp) (by simp)

/-- Python index `-1` on a non-empty list wraps around to the last element. -/
theorem pyGet_neg_one (xs : List Candle) (h : xs ≠ []) :
    pyGet xs (-1) = some (xs.getLast h) := by
  have hlen : 0 < xs.length := List.length_pos.mpr h
  rw [pyGet, if_neg (by norm_num), if_pos (by simp; omega)]
  simp only [Int.natAbs_neg, Int.natAbs_one]
  rw [← List.getLast?_eq_getElem?]
  exact List.getLast?_eq_getLast xs h

/-- Mapping over an `Except` yields `ok` exactly on an `ok` argument. -/
theorem except_map_eq_ok {ε α β : Type} (g : α → β) (x : Except ε α) (b : β) :
    x.map g = .ok b ↔ ∃ a, x = .ok a ∧ b = g a := by
  cases x <;> simp [Except.map]
  exact eq_comm

/-- C10: when the two series' first candles disagree on timestamp, the first
loop step substitutes the value at index `-1`, which wraps around to the last
element of the indexed list (`self` in both branches, as in the source); so
whenever the combine returns a series, its first candle is built from `xs`'s
final candle — combined with `ys`'s first candle when `xs` starts later, and
with `xs`'s own first candle when `xs` starts earlier. -/
theorem do_math_first_step_wraparound (f : Candle → Candle → Candle)
    (xs ys out : List Candle) (hx : xs ≠ []) (hy : ys ≠ []) :
    ((xs.head hx).dt > (ys.head hy).dt →
      do_math_operation f xs ys = .ok out →
      out.head? = some (f (xs.getLast hx) (ys.head hy)))
    ∧ ((xs.head hx).dt < (ys.head hy).dt →
      do_math_operation f xs ys = .ok out →
      out.head? = some (f (xs.head hx) (xs.getLast hx))) := by
  obtain ⟨x, xt, rfl⟩ := List.exists_cons_of_ne_nil hx
  obtain ⟨y, yt, rfl⟩ := List.exists_cons_of_ne_nil hy
  simp only [List.head_cons]
  constructor
  · intro hgt heq
    rw [do_math_operation, dif_neg (by simp)] at heq
    rw [mathOpGo] at heq
    simp only [List.get] at heq
    rw [if_neg (by omega), if_pos hgt] at heq
    split at heq
    · exact absurd heq (by simp)
    · rename_i c1' hpg
      rw [show ((0 : Nat) : Int) - 1 = -1 by norm_num,
        pyGet_neg_one (x :: xt) (List.cons_ne_nil x xt)] at hpg
      obtain rfl : c1' = (x :: xt).getLast (List.cons_ne_nil x xt) :=
        (Option.some.injEq _ _ ▸ hpg).symm
      split at heq
      · rw [if_neg (by simp)] at heq
        exact absurd heq (by simp)
      · rw [except_map_eq_ok] at heq
        obtain ⟨rest, _, rfl⟩ := heq
        simp
  · intro hlt heq
    rw [do_math_operation, dif_neg (by simp)] at heq
    rw [mathOpGo] at heq
    simp only [List.get] at heq
    rw [if_neg (by omega), if_neg (by omega)] at heq
    split at heq
    · exact absurd heq (by simp)
    · rename_i c2' hpg
      rw [show ((0 : Nat) : Int) - 1 = -1 by norm_num,
        pyGet_neg_one (x :: xt) (List.cons_ne_nil x xt)] at hpg
      obtain rfl : c2' = (x :: xt).getLast (List.cons_ne_nil x xt) :=
        (Option.some.injEq _ _ ▸ hpg).symm
      split at heq
      · rw [if_neg (by simp)] at heq
        exact absurd heq (by simp)
      · rw [except_map_eq_ok] at heq
        obtain ⟨rest, _, rfl⟩ := heq
        simp

/-- Witness for C10: concrete series whose first timestamps differ (5 > 0);
the combine succeeds and its first output uses the last candle of `xs`. -/
theorem do_math_first_step_wraparound_witness :
    ([(⟨3, 3, 3, 3, 2, 5⟩ : Candle), ⟨4, 4, 4, 4, 2, 5⟩] : List Candle).head?
      = some (Candle.add
          (([(⟨1, 1, 1, 1, 1, 5⟩ : Candle)] : List Candle).getLast (by simp))
          (([(⟨2, 2, 2, 2, 1, 0⟩ : Candle), ⟨3, 3, 3, 3, 1, 5⟩] : List Candle).head (by simp))) :=
  (do_math_first_step_wraparound Candle.add [⟨1, 1, 1, 1, 1, 5⟩]
      [⟨2, 2, 2, 2, 1, 0⟩, ⟨3, 3, 3, 3, 1, 5⟩] [⟨3, 3, 3, 3, 2, 5⟩, ⟨4, 4, 4, 4, 2, 5⟩]
      (by simp) (by simp)).1
    (by norm_num)
    (by
      rw [do_math_operation, dif_neg (by simp)]
      rw [mathOpGo]; norm_num [pyGet]
      rw [mathOpGo]; norm_num [Candle.add]
      rfl)

/-- The `NeedInsert` check is tied to row index `0`: once the loop is past the
first row it can never signal `NeedInsert`. -/
theorem readGo_no_insert_after_start (iv : CandleInterval) (from_ to_ : Int)
    (cols : List ColName) (n : Nat) :
    ∀ (rows : List (List Cell)) (i : Nat) (acc : List Candle) (t : Int), 1 ≤ i →
      readGo iv from_ to_ cols n i rows acc ≠ .error (.needInsert t) := by
  intro rows
  induction rows with
  | nil => intro i acc t _ h; simp [readGo] at h
  | cons row rest ih =>
    intro i acc t hi h
    rw [readGo] at h
    split at h
    · simp at h
    · split at h
      all_goals
        split at h
        · rename_i hcond
          obtain ⟨h0, -⟩ := hcond
          omega
        · split at h
          · simp at h
          · exact ih (i + 1) _ t (by omega) h

/-- C3: when the first data row decodes to a candle whose timestamp is later
than `from_` and the `DAY`-with-same-date exception does not apply, `read`
fails with `NeedInsert` carrying that timestamp — regardless of the remaining
rows, so it preempts any `NeedAppend` from the last row; and under the `DAY`
same-date exception no `NeedInsert` is ever raised. -/
theorem read_needinsert_on_late_first_row :
    (∀ (iv : CandleInterval) (from_ to_ : Int) (r : List Cell)
        (rest : List (List Cell)) (c : Candle),
      decodeRow COLUMNS r = some c →
      from_ < c.dt →
      ¬(iv = CandleInterval.DAY ∧ dateOf c.dt = dateOf from_) →
      csv_read iv from_ to_ ⟨COLUMNS, r :: rest⟩ = .error (.needInsert c.dt))
    ∧ (∀ (from_ to_ : Int) (r : List Cell) (rest : List (List Cell)) (c : Candle) (t : Int),
      decodeRow COLUMNS r = some c →
      dateOf c.dt = dateOf from_ →
      csv_read CandleInterval.DAY from_ to_ ⟨COLUMNS, r :: rest⟩ ≠ .error (.needInsert t)) := by
  constructor
  · intro iv from_ to_ r rest c hdec hgt hexc
    rw [csv_read, readGo]
    simp only [hdec]
    simp [hgt, hexc]
  · intro from_ to_ r rest c t hdec hdate h
    rw [csv_read, readGo] at h
    simp only [hdec] at h
    rw [if_neg (by simp [hdate])] at h
    split at h
    all_goals split at h
    all_goals
      first
      | exact readGo_no_insert_after_start _ _ _ _ _ rest 1 _ t (by omega) h
      | simp at h

/-- Witness for C3: a one-row MIN_1 file whose only row (timestamp 300) is
later than the requested start 0. -/
theorem read_needinsert_witness :
    csv_read CandleInterval.MIN_1 0 600 ⟨COLUMNS, [encodeRow ⟨1, 2, 0, 1, 10, 300⟩]⟩
      = .error (.needInsert 300) :=
  read_needinsert_on_late_first_row.1 CandleInterval.MIN_1 0 600
    (encodeRow ⟨1, 2, 0, 1, 10, 300⟩) [] ⟨1, 2, 0, 1, 10, 300⟩ rfl (by norm_num) (by simp)

/-- Row loop on an encoded series: past the first row (or when the first-row
check does not fire), the loop walks to the final row, accumulating every
in-window candle, and there applies the source's tolerance condition on the
last candle's timestamp: `NeedAppend` carrying the collected candles exactly
when the condition holds, success with the collected candles otherwise. -/
theorem readGo_last_row_rule (iv : CandleInterval) (from_ to_ : Int) (n : Nat) :
    ∀ (ss : List Candle) (hne : ss ≠ []) (i : Nat) (acc : List Candle),
      n = i + ss.length →
      (i = 0 → ¬(from_ < (ss.head hne).dt ∧
        ¬(iv = CandleInterval.DAY ∧ dateOf (ss.head hne).dt = dateOf from_))) →
      (ss.getLast hne).dt < to_ →
      readGo iv from_ to_ COLUMNS n i (ss.map encodeRow) acc =
        if (dateOf (ss.getLast hne).dt = dateOf to_ ∧ iv = CandleInterval.MIN_1 ∧
              to_ - (ss.getLast hne).dt > 120) ∨
            (iv = CandleInterval.MIN_5 ∧ to_ - (ss.getLast hne).dt > 360) ∨
            (iv = CandleInterval.HOUR ∧ to_ - (ss.getLast hne).dt > 3660) ∨
            (dateOf (ss.getLast hne).dt < dateOf to_ ∧ iv = CandleInterval.DAY) then
          .error (.needAppend (ss.getLast hne).dt
            (acc ++ ss.filter fun c => decide (from_ ≤ c.dt ∧ c.dt ≤ to_)))
        else .ok (acc ++ ss.filter fun c => decide (from_ ≤ c.dt ∧ c.dt ≤ to_)) := by
  intro ss
  induction ss with
  | nil => intro hne; exact absurd rfl hne
  | cons c rest ih =>
    intro hne i acc hn hfirst hlast
    rw [List.map_cons, readGo]
    split
    · rename_i hnone
      rw [decode_encode] at hnone
      exact absurd hnone (by simp)
    · rename_i c' hsome
      rw [decode_encode] at hsome
      obtain rfl : c = c' := Option.some.inj hsome
      rw [if_neg (fun hcond => hfirst hcond.1 hcond.2)]
      by_cases hP : from_ ≤ c.dt ∧ c.dt ≤ to_
      · rw [if_pos hP]
        cases rest with
        | nil =>
          simp only [List.getLast_singleton]
          by_cases hbig : (dateOf c.dt = dateOf to_ ∧ iv = CandleInterval.MIN_1 ∧
                to_ - c.dt > 120) ∨
              (iv = CandleInterval.MIN_5 ∧ to_ - c.dt > 360) ∨
              (iv = CandleInterval.HOUR ∧ to_ - c.dt > 3660) ∨
              (dateOf c.dt < dateOf to_ ∧ iv = CandleInterval.DAY)
          · rw [if_pos ⟨by simp only [List.length_cons, List.length_nil] at hn; omega,
              hlast, hbig⟩, if_pos hbig]
            simp [List.filter_cons, hP]
          · rw [if_neg (fun hc => hbig hc.2.2), if_neg hbig]
            simp only [List.map_nil]
            rw [readGo]
            simp [List.filter_cons, hP]
        | cons r rt =>
          rw [List.getLast_cons_cons] at hlast ⊢
          rw [if_neg (fun hc => absurd hc.1
            (by simp only [List.length_cons] at hn; omega))]
          refine (ih (List.cons_ne_nil r rt) (i + 1) (acc ++ [c])
              (by simp only [List.length_cons] at hn ⊢; omega)
              (fun h0 => absurd h0 (by omega)) hlast).trans ?_
          by_cases hbig : (dateOf ((r :: rt).getLast (List.cons_ne_nil r rt)).dt = dateOf to_ ∧
                iv = CandleInterval.MIN_1 ∧
                to_ - ((r :: rt).getLast (List.cons_ne_nil r rt)).dt > 120) ∨
              (iv = CandleInterval.MIN_5 ∧
                to_ - ((r :: rt).getLast (List.cons_ne_nil r rt)).dt > 360) ∨
              (iv = CandleInterval.HOUR ∧
                to_ - ((r :: rt).getLast (List.cons_ne_nil r rt)).dt > 3660) ∨
              (dateOf ((r :: rt).getLast (List.cons_ne_nil r rt)).dt < dateOf to_ ∧
                iv = CandleInterval.DAY) <;>
            simp [hbig, List.filter_cons, hP]
      · rw [if_neg hP]
        cases rest with
        | nil =>
          simp only [List.getLast_singleton]
          by_cases hbig : (dateOf c.dt = dateOf to_ ∧ iv = CandleInterval.MIN_1 ∧
                to_ - c.dt > 120) ∨
              (iv = CandleInterval.MIN_5 ∧ to_ - c.dt > 360) ∨
              (iv = CandleInterval.HOUR ∧ to_ - c.dt > 3660) ∨
              (dateOf c.dt < dateOf to_ ∧ iv = CandleInterval.DAY)
          · rw [if_pos ⟨by simp only [List.length_cons, List.length_nil] at hn; omega,
              hlast, hbig⟩, if_pos hbig]
            simp [List.filter_cons, hP]
          · rw [if_neg (fun hc => hbig hc.2.2), if_neg hbig]
            simp only [List.map_nil]
            rw [readGo]
            simp [List.filter_cons, hP]
        | cons r rt =>
          rw [List.getLast_cons_cons] at hlast ⊢
          rw [if_neg (fun hc => absurd hc.1
            (by simp only [List.length_cons] at hn; omega))]
          refine (ih (List.cons_ne_nil r rt) (i + 1) acc
              (by simp only [List.length_cons] at hn ⊢; omega)
              (fun h0 => absurd h0 (by omega)) hlast).trans ?_
          by_cases hbig : (dateOf ((r :: rt).getLast (List.cons_ne_nil r rt)).dt = dateOf to_ ∧
                iv = CandleInterval.MIN_1 ∧
                to_ - ((r :: rt).getLast (List.cons_ne_nil r rt)).dt > 120) ∨
              (iv = CandleInterval.MIN_5 ∧
                to_ - ((r :: rt).getLast (List.cons_ne_nil r rt)).dt > 360) ∨
              (iv = CandleInterval.HOUR ∧
                to_ - ((r :: rt).getLast (List.cons_ne_nil r rt)).dt > 3660) ∨
              (dateOf ((r :: rt).getLast (List.cons_ne_nil r rt)).dt < dateOf to_ ∧
                iv = CandleInterval.DAY) <;>
            simp [hbig, List.filter_cons, hP]

/-- C2 (amended): for every cache file of encoded rows whose last row's
timestamp is earlier than `to_` (and whose first row does not trigger the
prior `NeedInsert` check, which includes every file starting at or before
`from_` and the `DAY`-with-same-date exception files), `read` signals
`NeedAppend` — carrying the in-window candles — exactly when the source's
tolerance condition holds on the last row: for `MIN_1` a gap above 2 minutes
*and* the same calendar date; for `MIN_5` a gap above 6 minutes and for
`HOUR` a gap above 61 minutes with no same-date requirement; for `DAY`
whenever the last row's date precedes `to_`'s date; all other intervals never
signal `NeedAppend`, and otherwise `read` returns the in-window candles. -/
theorem read_last_row_append_rule (iv : CandleInterval) (s : List Candle) (hne : s ≠ [])
    (from_ to_ : Int)
    (hfirst : ¬(from_ < (s.head hne).dt ∧
      ¬(iv = CandleInterval.DAY ∧ dateOf (s.head hne).dt = dateOf from_)))
    (hlast : (s.getLast hne).dt < to_) :
    csv_read iv from_ to_ ⟨COLUMNS, csv_append s⟩ =
      if (dateOf (s.getLast hne).dt = dateOf to_ ∧ iv = CandleInterval.MIN_1 ∧
            to_ - (s.getLast hne).dt > 120) ∨
          (iv = CandleInterval.MIN_5 ∧ to_ - (s.getLast hne).dt > 360) ∨
          (iv = CandleInterval.HOUR ∧ to_ - (s.getLast hne).dt > 3660) ∨
          (dateOf (s.getLast hne).dt < dateOf to_ ∧ iv = CandleInterval.DAY) then
        .error (.needAppend (s.getLast hne).dt
          (s.filter fun c => decide (from_ ≤ c.dt ∧ c.dt ≤ to_)))
      else .ok (s.filter fun c => decide (from_ ≤ c.dt ∧ c.dt ≤ to_)) := by
  rw [csv_read, csv_append]
  have h := readGo_last_row_rule iv from_ to_ (List.map encodeRow s).length s hne 0 []
    (by simp) (fun _ => hfirst) hlast
  rw [h]
  simp only [List.nil_append]

/-- Counterexample to C2 as stated: a MIN_5 file whose single row is at
23:58:00 of day 0 while `to_` is 00:05:00 of day 1 — a 7-minute gap across a
date boundary.  The claim requires same-date for every sub-daily interval, so
it predicts no signal; the code signals `NeedAppend` (the same-date conjunct
binds only to the MIN_1 arm of the Python condition). -/
theorem read_min5_cross_date_cex :
    csv_read CandleInterval.MIN_5 86280 86700 ⟨COLUMNS, [encodeRow ⟨1, 2, 0, 1, 10, 86280⟩]⟩
      = .error (.needAppend 86280 [⟨1, 2, 0, 1, 10, 86280⟩])
    ∧ dateOf 86280 ≠ dateOf 86700 := by
  refine ⟨rfl, ?_⟩
  decide

/-- Witness for C2 (amended): a two-row MIN_1 file whose last row is 3
minutes before `to_` on the same date signals `NeedAppend` carrying both
candles. -/
theorem read_min1_gap_witness :
    csv_read CandleInterval.MIN_1 0 240
        ⟨COLUMNS, csv_append [⟨1, 2, 0, 1, 10, 0⟩, ⟨2, 3, 1, 2, 20, 60⟩]⟩
      = .error (.needAppend 60 [⟨1, 2, 0, 1, 10, 0⟩, ⟨2, 3, 1, 2, 20, 60⟩]) := by
  have h := read_last_row_append_rule CandleInterval.MIN_1
    [⟨1, 2, 0, 1, 10, 0⟩, ⟨2, 3, 1, 2, 20, 60⟩] (by simp) 0 240
    (by decide) (by decide)
  rw [h, if_pos (by decide)]
  rfl

/-- The conversion loop never produces more values than there are cells
(`zip` truncation). -/
theorem convertCells_length_le :
    ∀ (cols : List ColName) (cs : List Cell) (vs : List Value),
      convertCells cols cs = some vs → vs.length ≤ cs.length := by
  intro cols
  induction cols with
  | nil =>
    intro cs vs h
    cases cs <;> simp [convertCells] at h <;> simp_all
  | cons col cols ih =>
    intro cs vs h
    cases cs with
    | nil => simp [convertCells] at h; simp_all
    | cons cell cells =>
      have hstep : ∀ (o : Option (List Value)) (v : Value),
          o.map (v :: ·) = some vs → (∃ vs2, o = some vs2 ∧ vs = v :: vs2) := by
        intro o v ho
        cases o with
        | none => simp at ho
        | some vs2 => exact ⟨vs2, rfl, by simpa using ho.symm⟩
      cases col
      case cunknown =>
        rw [convertCells] at h
        exact (ih cells vs h).trans (Nat.le_succ _)
      case cvolume =>
        rw [convertCells] at h
        cases hcv : cell.asInt with
        | none => rw [hcv] at h; simp at h
        | some q =>
          rw [hcv] at h
          obtain ⟨vs2, hvs2, rfl⟩ := hstep _ _ h
          have := ih cells vs2 hvs2
          simp only [List.length_cons]
          omega
      case ctime =>
        rw [convertCells] at h
        cases hcv : cell.asDatetime with
        | none => rw [hcv] at h; simp at h
        | some q =>
          rw [hcv] at h
          obtain ⟨vs2, hvs2, rfl⟩ := hstep _ _ h
          have := ih cells vs2 hvs2
          simp only [List.length_cons]
          omega
      all_goals
        rw [convertCells] at h
        cases hcv : cell.asFloat with
        | none => rw [hcv] at h; simp at h
        | some q =>
          rw [hcv] at h
          obtain ⟨vs2, hvs2, rfl⟩ := hstep _ _ h
          have := ih cells vs2 hvs2
          simp only [List.length_cons]
          omega

/-- A row constructor success forces exactly six values. -/
theorem row2candle_length (vs : List Value) (cd : Candle) :
    row2candle vs = some cd → vs.length = 6 := by
  intro h
  unfold row2candle at h
  split at h
  · rfl
  · simp at h

/-- A data row with fewer cells than the six canonical columns never decodes:
`zip` truncation leaves too few values for the row constructor. -/
theorem decodeRow_short (cs : List Cell) (hshort : cs.length < 6) :
    decodeRow COLUMNS cs = none := by
  cases hdc : decodeRow COLUMNS cs with
  | none => rfl
  | some cd =>
    rw [decodeRow] at hdc
    obtain ⟨vs, hvs, hr⟩ := Option.bind_eq_some.mp hdc
    have h6 := row2candle_length vs cd hr
    have hle := convertCells_length_le COLUMNS cs vs hvs
    omega

/-- Decoding a row of six or more cells under the canonical header evaluates
to the candle of the first six converted values when all six conversions
succeed, and to `none` otherwise; cells beyond the sixth are ignored. -/
theorem decodeRow_canonical_eval (a1 a2 a3 a4 a5 a6 : Cell) (rest : List Cell) :
    decodeRow COLUMNS (a1 :: a2 :: a3 :: a4 :: a5 :: a6 :: rest) =
      match a1.asFloat, a2.asFloat, a3.asFloat, a4.asFloat, a5.asInt, a6.asDatetime with
      | some o, some h, some l, some cl, some v, some t => some ⟨o, h, l, cl, v, t⟩
      | _, _, _, _, _, _ => none := by
  cases h1 : a1.asFloat <;> cases h2 : a2.asFloat <;> cases h3 : a3.asFloat <;>
    cases h4 : a4.asFloat <;> cases h5 : a5.asInt <;> cases h6 : a6.asDatetime <;>
    simp [decodeRow, COLUMNS, convertCells, row2candle, h1, h2, h3, h4, h5, h6]

/-- C6 (amended): under the canonical header, a data row decodes to a candle
exactly when it has at least six cells and the six conversions selected by the
canonical column names succeed — so a row with *fewer* cells or a failing
conversion among the first six is the exact failure condition, while cells
beyond the sixth are ignored; and a file whose first row fails to decode makes
`read` fail with the `MalformedRow` error. -/
theorem decode_failure_characterization :
    (∀ cs : List Cell,
      (∃ cd, decodeRow COLUMNS cs = some cd) ↔
        (∃ (a1 a2 a3 a4 a5 a6 : Cell) (rest : List Cell),
          cs = a1 :: a2 :: a3 :: a4 :: a5 :: a6 :: rest ∧
          a1.asFloat.isSome ∧ a2.asFloat.isSome ∧ a3.asFloat.isSome ∧
          a4.asFloat.isSome ∧ a5.asInt.isSome ∧ a6.asDatetime.isSome))
    ∧ (∀ (iv : CandleInterval) (from_ to_ : Int) (row : List Cell) (rest : List (List Cell)),
      decodeRow COLUMNS row = none →
      csv_read iv from_ to_ ⟨COLUMNS, row :: rest⟩ = .error .malformedRow) := by
  constructor
  · intro cs
    constructor
    · rintro ⟨cd, hcd⟩
      rcases cs with _ | ⟨a1, _ | ⟨a2, _ | ⟨a3, _ | ⟨a4, _ | ⟨a5, _ | ⟨a6, rest⟩⟩⟩⟩⟩⟩
      · rw [decodeRow_short _ (by simp)] at hcd; simp at hcd
      · rw [decodeRow_short _ (by simp)] at hcd; simp at hcd
      · rw [decodeRow_short _ (by simp)] at hcd; simp at hcd
      · rw [decodeRow_short _ (by simp)] at hcd; simp at hcd
      · rw [decodeRow_short _ (by simp)] at hcd; simp at hcd
      · rw [decodeRow_short _ (by simp)] at hcd; simp at hcd
      · rw [decodeRow_canonical_eval] at hcd
        refine ⟨a1, a2, a3, a4, a5, a6, rest, rfl, ?_⟩
        split at hcd
        · rename_i o h l cl v t h1 h2 h3 h4 h5 h6
          simp [h1, h2, h3, h4, h5, h6]
        · simp at hcd
    · rintro ⟨a1, a2, a3, a4, a5, a6, rest, rfl, h1, h2, h3, h4, h5, h6⟩
      obtain ⟨o, ho⟩ := Option.isSome_iff_exists.mp h1
      obtain ⟨h, hh⟩ := Option.isSome_iff_exists.mp h2
      obtain ⟨l, hl⟩ := Option.isSome_iff_exists.mp h3
      obtain ⟨cl, hcl⟩ := Option.isSome_iff_exists.mp h4
      obtain ⟨v, hv⟩ := Option.isSome_iff_exists.mp h5
      obtain ⟨t, ht⟩ := Option.isSome_iff_exists.mp h6
      rw [decodeRow_canonical_eval, ho, hh, hl, hcl, hv, ht]
      exact ⟨_, rfl⟩
  · intro iv from_ to_ row rest hdec
    rw [csv_read, readGo]
    split
    · rfl
    · rename_i c hc
      rw [hdec] at hc
      exact absurd hc (by simp)

/-- Counterexample to C6 as stated: a row with seven cells — the canonical six
plus a trailing cell on which every conversion fails — has the wrong column
count, yet it decodes successfully (and a whole-file read returns its candle):
`zip` truncates the extras instead of failing. -/
theorem decode_extra_cells_cex :
    decodeRow COLUMNS (encodeRow ⟨1, 2, 0, 1, 10, 0⟩ ++ [⟨none, none, none⟩])
      = some ⟨1, 2, 0, 1, 10, 0⟩
    ∧ csv_read CandleInterval.MIN_1 0 0
        ⟨COLUMNS, [encodeRow ⟨1, 2, 0, 1, 10, 0⟩ ++ [⟨none, none, none⟩]]⟩
      = .ok [⟨1, 2, 0, 1, 10, 0⟩] :=
  ⟨rfl, rfl⟩

/-- Witness for C6: a one-cell row fails to decode and `read` reports the
malformed row. -/
theorem decode_failure_witness :
    decodeRow COLUMNS [(⟨none, none, none⟩ : Cell)] = none
    ∧ csv_read CandleInterval.MIN_1 0 100 ⟨COLUMNS, [[(⟨none, none, none⟩ : Cell)]]⟩
      = .error .malformedRow :=
  ⟨rfl, decode_failure_characterization.2 CandleInterval.MIN_1 0 100
    [⟨none, none, none⟩] [] rfl⟩

/-- C7 (amended): the header's column names select each cell's *conversion*
(name-matching), but the converted values are handed to the row constructor in
file order, not canonical order.  For a header permuted to put `volume` first,
every conversion is still chosen correctly by name, yet the constructor input
has the wrong shape, so decoding fails instead of reproducing the candles of
the canonically ordered file. -/
theorem decode_permuted_header_positional (c : Candle) :
    convertCells [ColName.cvolume, ColName.copen, ColName.chigh, ColName.clow,
        ColName.cclose, ColName.ctime]
        [strOfInt c.volume, strOfFloat c.«open», strOfFloat c.high, strOfFloat c.low,
          strOfFloat c.close, strOfDatetime c.dt]
      = some [Value.vint c.volume, Value.vfloat c.«open», Value.vfloat c.high,
          Value.vfloat c.low, Value.vfloat c.close, Value.vtime c.dt]
    ∧ decodeRow [ColName.cvolume, ColName.copen, ColName.chigh, ColName.clow,
        ColName.cclose, ColName.ctime]
        [strOfInt c.volume, strOfFloat c.«open», strOfFloat c.high, strOfFloat c.low,
          strOfFloat c.close, strOfDatetime c.dt] = none
    ∧ decodeRow COLUMNS (encodeRow c) = some c :=
  ⟨rfl, rfl, rfl⟩

/-- Counterexample to C7 as stated: the same candle data stored under a
permuted header (volume first) fails to decode with `MalformedRow`, while the
canonically ordered file decodes to the candle — the decoded candles are not
field-for-field equal. -/
theorem decode_permuted_header_cex :
    csv_read CandleInterval.MIN_1 0 0
        ⟨[ColName.cvolume, ColName.copen, ColName.chigh, ColName.clow,
            ColName.cclose, ColName.ctime],
          [[strOfInt 10, strOfFloat 1, strOfFloat 2, strOfFloat 0, strOfFloat 1,
            strOfDatetime 0]]⟩
      = .error .malformedRow
    ∧ csv_read CandleInterval.MIN_1 0 0 ⟨COLUMNS, [encodeRow ⟨1, 2, 0, 1, 10, 0⟩]⟩
      = .ok [⟨1, 2, 0, 1, 10, 0⟩] :=
  ⟨rfl, rfl⟩

/-- Row loop on encoded rows: when every candle lies inside the window, the
first row is not after `from_` (when starting at index 0) and the last row is
not before `to_`, the loop collects every candle and succeeds. -/
theorem readGo_ok_of_in_range (iv : CandleInterval) (from_ to_ : Int) (n : Nat) :
    ∀ (ss : List Candle) (i : Nat) (acc : List Candle),
      n = i + ss.length →
      (∀ c ∈ ss, from_ ≤ c.dt ∧ c.dt ≤ to_) →
      (i = 0 → ∀ c, ss.head? = some c → ¬ from_ < c.dt) →
      (∀ c, ss.getLast? = some c → ¬ c.dt < to_) →
      readGo iv from_ to_ COLUMNS n i (ss.map encodeRow) acc = .ok (acc ++ ss) := by
  intro ss
  induction ss with
  | nil => intro i acc _ _ _ _; simp [readGo]
  | cons c rest ih =>
    intro i acc hn hall hhead hlast
    rw [List.map_cons, readGo]
    split
    · rename_i hnone
      rw [decode_encode] at hnone
      exact absurd hnone (by simp)
    · rename_i c' hsome
      rw [decode_encode] at hsome
      obtain rfl : c = c' := Option.some.inj hsome
      have hcin := hall c (List.mem_cons_self c rest)
      rw [if_pos hcin]
      rw [if_neg (by rintro ⟨hi0, hflt, -⟩; exact hhead hi0 c (by simp) hflt)]
      cases rest with
      | nil =>
        rw [if_neg (by rintro ⟨-, hlt, -⟩; exact hlast c (by simp) hlt)]
        rfl
      | cons r rt =>
        rw [if_neg (by
          rintro ⟨hi, -, -⟩
          simp only [List.length_cons] at hn
          omega)]
        refine (ih (i + 1) (acc ++ [c]) (by simp only [List.length_cons] at hn ⊢; omega)
          (fun x hx => hall x (List.mem_cons_of_mem c hx))
          (by omega)
          (fun x hx => hlast x (by rw [List.getLast?_cons_cons]; exact hx))).trans ?_
        simp

/-- C8: encoding a chronologically ordered, non-empty series with `_append`'s
row format and reading it back over the window spanned by the series recovers
every candle exactly — OHLC, volume and timestamp all equal. -/
theorem csv_roundtrip (iv : CandleInterval) (s : List Candle) (hne : s ≠ [])
    (hord : ∀ c ∈ s, (s.head hne).dt ≤ c.dt ∧ c.dt ≤ (s.getLast hne).dt) :
    csv_read iv ((s.head hne).dt) ((s.getLast hne).dt) ⟨COLUMNS, csv_append s⟩ = .ok s := by
  rw [csv_read, csv_append]
  have hn : (List.map encodeRow s).length = 0 + s.length := by simp
  have h := readGo_ok_of_in_range iv ((s.head hne).dt) ((s.getLast hne).dt)
    (List.map encodeRow s).length s 0 [] hn hord
    (fun _ c hc => by
      rw [List.head?_eq_head hne] at hc
      obtain rfl := Option.some.inj hc
      omega)
    (fun c hc => by
      rw [List.getLast?_eq_getLast s hne] at hc
      obtain rfl := Option.some.inj hc
      omega)
  simpa using h

/-- Witness for C8 at a concrete two-candle series. -/
theorem csv_roundtrip_witness :
    csv_read CandleInterval.MIN_1 0 60
        ⟨COLUMNS, csv_append [⟨1, 2, 0, 1, 10, 0⟩, ⟨2, 3, 1, 2, 20, 60⟩]⟩
      = .ok [⟨1, 2, 0, 1, 10, 0⟩, ⟨2, 3, 1, 2, 20, 60⟩] := by
  have h := csv_roundtrip CandleInterval.MIN_1 [⟨1, 2, 0, 1, 10, 0⟩, ⟨2, 3, 1, 2, 20, 60⟩]
    (by simp)
    (by
      intro c hc
      simp only [List.mem_cons, List.mem_singleton] at hc
      rcases hc with rfl | rfl | h
      · constructor <;> norm_num [List.head, List.getLast]
      · constructor <;> norm_num [List.head, List.getLast]
      · simp at h)
  simpa [List.head, List.getLast] using h
